import Mathlib

set_option maxHeartbeats 1000000
set_option maxRecDepth 100000
set_option linter.constructorNameAsVariable false

/-!
Shallow embedding of the clinical-registry application (`app.py`).

Strings are modelled as lists over a finite character universe `Ch` that
covers every character the embedded functions treat specially: ASCII
letters and digits, the punctuation appearing in the program's string
constants and date/number formats, the Spanish accented letters appearing
in the keyword and medication lists, and the combining diacritical marks
(Unicode block U+0300–U+036F, all of general category Mn) their NFD
decompositions produce.  One extra constructor `other` stands for any
further character: such characters are not whitespace, not combining
marks, are fixed by lowercasing and are NFD-inert, which is faithful for
the punctuation and symbol characters the application would meet.

Python floats are modelled as exact rationals (the kernel-computable
type `Raz` below, kept in lowest terms by its smart constructors);
`float(...)` is modelled on the plain decimal-literal grammar (optional
sign, digits with at most one dot) after the source's comma→dot
replacement — the exotic accepted forms (`nan`, `inf`, exponents,
underscores) are outside the modelled universe.  `round(x, 2)` is
modelled as round-half-to-even on the exact rational.
-/

/-- Finite character universe of the embedding (see module comment). -/
inductive Ch where
  | a | b | c | d | e | f | g | h | i | j | k | l | m
  | n | o | p | q | r | s | t | u | v | w | x | y | z
  | A | B | C | D | E | F | G | H | I | J | K | L | M
  | N | O | P | Q | R | S | T | U | V | W | X | Y | Z
  | d0 | d1 | d2 | d3 | d4 | d5 | d6 | d7 | d8 | d9
  | space | slash | dash | comma | dot | plus
  | aacute | eacute | iacute | oacute | uacute | udia | ntilde
  | Aacute | Eacute | Iacute | Oacute | Uacute | Udia | Ntilde
  | macute | mtilde | mdia
  | other
  deriving DecidableEq, Fintype, Repr

/-- Injection of Lean characters into the modelled universe, used only to
write the program's string constants readably. -/
def ofChar (c : Char) : Ch :=
  match c with
  | 'a' => .a | 'b' => .b | 'c' => .c | 'd' => .d | 'e' => .e | 'f' => .f
  | 'g' => .g | 'h' => .h | 'i' => .i | 'j' => .j | 'k' => .k | 'l' => .l
  | 'm' => .m | 'n' => .n | 'o' => .o | 'p' => .p | 'q' => .q | 'r' => .r
  | 's' => .s | 't' => .t | 'u' => .u | 'v' => .v | 'w' => .w | 'x' => .x
  | 'y' => .y | 'z' => .z
  | 'A' => .A | 'B' => .B | 'C' => .C | 'D' => .D | 'E' => .E | 'F' => .F
  | 'G' => .G | 'H' => .H | 'I' => .I | 'J' => .J | 'K' => .K | 'L' => .L
  | 'M' => .M | 'N' => .N | 'O' => .O | 'P' => .P | 'Q' => .Q | 'R' => .R
  | 'S' => .S | 'T' => .T | 'U' => .U | 'V' => .V | 'W' => .W | 'X' => .X
  | 'Y' => .Y | 'Z' => .Z
  | '0' => .d0 | '1' => .d1 | '2' => .d2 | '3' => .d3 | '4' => .d4
  | '5' => .d5 | '6' => .d6 | '7' => .d7 | '8' => .d8 | '9' => .d9
  | ' ' => .space | '/' => .slash | '-' => .dash | ',' => .comma
  | '.' => .dot | '+' => .plus
  | 'á' => .aacute | 'é' => .eacute | 'í' => .iacute | 'ó' => .oacute
  | 'ú' => .uacute | 'ü' => .udia | 'ñ' => .ntilde
  | 'Á' => .Aacute | 'É' => .Eacute | 'Í' => .Iacute | 'Ó' => .Oacute
  | 'Ú' => .Uacute | 'Ü' => .Udia | 'Ñ' => .Ntilde
  | '́' => .macute | '̃' => .mtilde | '̈' => .mdia
  | _ => .other

/-- A Lean string literal as a modelled string. -/
def ofString (s : String) : List Ch := s.data.map ofChar

/-- `str.lower()` on one character of the modelled universe. -/
def lowerCh (c : Ch) : Ch :=
  match c with
  | .A => .a | .B => .b | .C => .c | .D => .d | .E => .e | .F => .f
  | .G => .g | .H => .h | .I => .i | .J => .j | .K => .k | .L => .l
  | .M => .m | .N => .n | .O => .o | .P => .p | .Q => .q | .R => .r
  | .S => .s | .T => .t | .U => .u | .V => .v | .W => .w | .X => .x
  | .Y => .y | .Z => .z
  | .Aacute => .aacute | .Eacute => .eacute | .Iacute => .iacute
  | .Oacute => .oacute | .Uacute => .uacute | .Udia => .udia
  | .Ntilde => .ntilde
  | c => c

/-- Whitespace test (`str.strip()` boundary characters in the universe). -/
def isWsCh (c : Ch) : Bool := c == Ch.space

/-- `unicodedata.category(c) == "Mn"` for the modelled universe: exactly
the combining diacritical marks. -/
def isMnCh (c : Ch) : Bool :=
  match c with
  | .macute | .mtilde | .mdia => true
  | _ => false

/-- `unicodedata.normalize("NFD", ·)` on one character: the precomposed
accented letters decompose into base letter plus combining mark, every
other modelled character is NFD-inert. -/
def nfdCh (c : Ch) : List Ch :=
  match c with
  | .aacute => [.a, .macute] | .eacute => [.e, .macute]
  | .iacute => [.i, .macute] | .oacute => [.o, .macute]
  | .uacute => [.u, .macute] | .udia => [.u, .mdia]
  | .ntilde => [.n, .mtilde]
  | .Aacute => [.A, .macute] | .Eacute => [.E, .macute]
  | .Iacute => [.I, .macute] | .Oacute => [.O, .macute]
  | .Uacute => [.U, .macute] | .Udia => [.U, .mdia]
  | .Ntilde => [.N, .mtilde]
  | c => [c]

/-- `str.lstrip()`: drop leading whitespace. -/
def stripIzq (l : List Ch) : List Ch := l.dropWhile isWsCh

/-- `str.rstrip()`: drop trailing whitespace. -/
def stripDer (l : List Ch) : List Ch := (stripIzq l.reverse).reverse

/-- `str.strip()`: drop leading and trailing whitespace. -/
def strip (l : List Ch) : List Ch := stripDer (stripIzq l)

/-- NFD-decompose and drop the combining marks (category Mn), i.e. the
generator expression in `normaliza` (`app.py` lines 41–44). -/
def deaccent : List Ch → List Ch
  | [] => []
  | c :: t => (nfdCh c).filter (fun d => !isMnCh d) ++ deaccent t

/-- `normaliza` (`app.py` lines 35–45) on a string input: lowercase,
strip surrounding whitespace, then NFD-decompose and remove the
combining diacritical marks. -/
def normaliza (l : List Ch) : List Ch :=
  deaccent (strip (l.map lowerCh))

/-- `needle == hay[:len(needle)]`, i.e. prefix test used to implement
Python's substring operator. -/
def empiezaCon : List Ch → List Ch → Bool
  | [], _ => true
  | _ :: _, [] => false
  | a :: as, b :: bs => a == b && empiezaCon as bs

/-- Python's `needle in hay` substring test. -/
def contiene (needle : List Ch) : List Ch → Bool
  | [] => needle.isEmpty
  | c :: t => empiezaCon needle (c :: t) || contiene needle t

/-- A string whose first character, if any, is not whitespace. -/
def LimpIzq (l : List Ch) : Prop := ∀ a, l.head? = some a → isWsCh a = false

/-- A string whose last character, if any, is not whitespace. -/
def LimpDer (l : List Ch) : Prop := LimpIzq l.reverse

/-- `MEDICAMENTOS_DIABETES` (`app.py` lines 61–64). -/
def MEDICAMENTOS_DIABETES : List (List Ch) :=
  [ofString ("insulina"), ofString ("metformina"), ofString ("dapagliflozina"),
   ofString ("vildagliptina"), ofString ("sitagliptina")]

/-- `MEDICAMENTOS_HTA` (`app.py` lines 66–70). -/
def MEDICAMENTOS_HTA : List (List Ch) :=
  [ofString ("losartan"), ofString ("losartán"), ofString ("amlodipina"),
   ofString ("carvedilol"), ofString ("hidroclorotiazida"), ofString ("bisoprolol"),
   ofString ("enalapril"), ofString ("telmisartan"), ofString ("telmisartán"),
   ofString ("valsartan"), ofString ("valsartán")]

/-- `MEDICAMENTOS_HIPOTIROIDISMO` (`app.py` line 72). -/
def MEDICAMENTOS_HIPOTIROIDISMO : List (List Ch) :=
  [ofString ("levotiroxina")]

/-- The five classification outcomes of `clasificar_paciente`; the source
returns them as the strings named below. -/
inductive Categoria where
  | diabetes | hta | hipotiroidismo | mixto | ninguno
  deriving DecidableEq, Repr

/-- `es_diabetico` (`app.py` lines 91–97). -/
def es_diabetico (diagnostico tratamiento : List Ch) : Bool :=
  let diag_norm := normaliza diagnostico
  let trat_norm := normaliza tratamiento
  contiene (ofString ("diabetes")) diag_norm ||
  contiene (ofString ("dmt2")) diag_norm ||
  contiene (ofString ("dm2")) diag_norm ||
  contiene (ofString ("mellitus tipo 2")) diag_norm ||
  MEDICAMENTOS_DIABETES.any (fun med => contiene med trat_norm)

/-- `es_hipertenso` (`app.py` lines 100–105). -/
def es_hipertenso (diagnostico tratamiento : List Ch) : Bool :=
  let diag_norm := normaliza diagnostico
  let trat_norm := normaliza tratamiento
  contiene (ofString ("hipertension")) diag_norm ||
  contiene (ofString ("hipertensión arterial")) diag_norm ||
  contiene (ofString ("hta")) diag_norm ||
  MEDICAMENTOS_HTA.any (fun med => contiene med trat_norm)

/-- `es_hipotiroideo` (`app.py` lines 108–112). -/
def es_hipotiroideo (diagnostico tratamiento : List Ch) : Bool :=
  let diag_norm := normaliza diagnostico
  let trat_norm := normaliza tratamiento
  contiene (ofString ("hipotiroidismo")) diag_norm ||
  contiene (ofString ("hipot")) diag_norm ||
  MEDICAMENTOS_HIPOTIROIDISMO.any (fun med => contiene med trat_norm)

/-- `clasificar_paciente` (`app.py` lines 82–124). -/
def clasificar_paciente (diagnostico tratamiento : List Ch) : Categoria :=
  if es_diabetico diagnostico tratamiento && es_hipertenso diagnostico tratamiento then
    .mixto
  else if es_diabetico diagnostico tratamiento then .diabetes
  else if es_hipertenso diagnostico tratamiento then .hta
  else if es_hipotiroideo diagnostico tratamiento then .hipotiroidismo
  else .ninguno

/-- Digit test on the modelled universe. -/
def esDigito (c : Ch) : Bool :=
  match c with
  | .d0 | .d1 | .d2 | .d3 | .d4 | .d5 | .d6 | .d7 | .d8 | .d9 => true
  | _ => false

/-- Numeric value of a digit character (0 on non-digits; callers guard
with `esDigito`). -/
def valorDigito (c : Ch) : Nat :=
  match c with
  | .d0 => 0 | .d1 => 1 | .d2 => 2 | .d3 => 3 | .d4 => 4
  | .d5 => 5 | .d6 => 6 | .d7 => 7 | .d8 => 8 | .d9 => 9
  | _ => 0

/-- Value of a digit string read in base 10. -/
def natVal (l : List Ch) : Nat :=
  l.foldl (fun acc c => acc * 10 + valorDigito c) 0

/-- Euclid's algorithm with explicit fuel, so that it is structurally
recursive and reduces inside the kernel. -/
def gcdF : Nat → Nat → Nat → Nat
  | 0, _, b => b
  | _ + 1, 0, b => b
  | f + 1, a + 1, b => gcdF f (b % (a + 1)) (a + 1)

/-- Greatest common divisor via `gcdF` (the fuel `a + b + 1` always
suffices for Euclid's algorithm). -/
def ngcd (a b : Nat) : Nat := gcdF (a + b + 1) a b

/-- Exact rational numbers with kernel-computable arithmetic, used to
model Python floats.  All arithmetic results are put in lowest terms by
`Raz.norm`, so equality of computed values is structural equality. -/
structure Raz where
  num : Int
  den : Nat
  deriving DecidableEq, Repr

/-- Reduce a fraction to lowest terms. -/
def Raz.norm (x : Raz) : Raz :=
  let g := ngcd x.num.natAbs x.den
  if g = 0 then x
  else if 0 ≤ x.num then ⟨Int.ofNat (x.num.toNat / g), x.den / g⟩
  else ⟨-Int.ofNat ((-x.num).toNat / g), x.den / g⟩

/-- Smart constructor: the rational `n / d` in lowest terms. -/
def raz (n : Int) (d : Nat) : Raz := Raz.norm ⟨n, d⟩

/-- Negation. -/
def Raz.neg (x : Raz) : Raz := ⟨-x.num, x.den⟩

/-- Addition, normalized. -/
def Raz.add (x y : Raz) : Raz :=
  Raz.norm ⟨x.num * (y.den : Int) + y.num * (x.den : Int), x.den * y.den⟩

/-- Multiplication, normalized. -/
def Raz.mul (x y : Raz) : Raz := Raz.norm ⟨x.num * y.num, x.den * y.den⟩

/-- Division, normalized (callers never divide by zero). -/
def Raz.div (x y : Raz) : Raz :=
  Raz.norm ⟨(if y.num < 0 then -(x.num * (y.den : Int)) else x.num * (y.den : Int)),
            x.den * y.num.natAbs⟩

/-- Order test `x ≤ y` by cross-multiplication. -/
def Raz.le (x y : Raz) : Bool := decide (x.num * (y.den : Int) ≤ y.num * (x.den : Int))

/-- Order test `x < y` by cross-multiplication. -/
def Raz.lt (x y : Raz) : Bool := decide (x.num * (y.den : Int) < y.num * (x.den : Int))

/-- Floor of a rational as an integer. -/
def Raz.floor (x : Raz) : Int :=
  if 0 ≤ x.num then Int.ofNat (x.num.toNat / x.den)
  else -Int.ofNat (((-x.num).toNat + x.den - 1) / x.den)

/-- `str.replace(",", ".")` as performed before both `float` calls of
`calcular_imc` (`app.py` lines 51–52). -/
def replComa (l : List Ch) : List Ch :=
  l.map (fun c => if c == Ch.comma then Ch.dot else c)

/-- `float(...)` on the plain decimal-literal grammar: surrounding
whitespace ignored, optional single sign, then digits with at most one
dot and at least one digit; any other input fails (the `ValueError`
branch of the source's `try`). -/
def parse_float (s : List Ch) : Option Raz :=
  let t := strip s
  let neg : Bool := match t with
    | Ch.dash :: _ => true
    | _ => false
  let u : List Ch := match t with
    | Ch.dash :: r => r
    | Ch.plus :: r => r
    | _ => t
  let ent := u.takeWhile (fun c => c != Ch.dot)
  let resto := u.dropWhile (fun c => c != Ch.dot)
  let abs : Option Raz :=
    match resto with
    | [] =>
      if !ent.isEmpty && ent.all esDigito then some (raz (natVal ent) 1)
      else none
    | _ :: frac =>
      if ent.all esDigito && frac.all esDigito && (!ent.isEmpty || !frac.isEmpty) then
        some (raz (natVal ent * 10 ^ frac.length + natVal frac) (10 ^ frac.length))
      else none
  abs.map (fun q => if neg then Raz.neg q else q)

/-- Round half to even on an exact rational, the tie behaviour of
Python's `round`. -/
def rhe (q : Raz) : Int :=
  let f := Raz.floor q
  let r := Raz.add q (Raz.neg ⟨f, 1⟩)
  if Raz.lt r ⟨1, 2⟩ then f
  else if Raz.lt ⟨1, 2⟩ r then f + 1
  else if f % 2 = 0 then f else f + 1

/-- `round(x, 2)` on an exact rational. -/
def round2 (q : Raz) : Raz := Raz.div ⟨rhe (Raz.mul q ⟨100, 1⟩), 1⟩ ⟨100, 1⟩

/-- `calcular_imc` (`app.py` lines 48–57): parse both inputs after
comma→dot replacement; malformed input or a non-positive height yields
the empty result (`None` here, `""` in the source).  Exact-rational
idealization of the source's binary64 arithmetic: the
`ZeroDivisionError` branch of the source's `except`, reachable only when
the float square of a positive height underflows to `0.0` (heights below
about 1.5e-162), has no counterpart here, and rounding of the quotient
is performed on the exact value.  Statements proved about this function
hold of the program only where the two arithmetics agree. -/
def calcular_imc (peso estatura : List Ch) : Option Raz :=
  match parse_float (replComa peso), parse_float (replComa estatura) with
  | some p, some e =>
    if Raz.le e ⟨0, 1⟩ then none else some (round2 (Raz.div p (Raz.mul e e)))
  | _, _ => none

/-- The full blood-pressure edit cycle for the "Presión Arterial (mmHg)"
column: the editor commit strips the entered text (`app.py` line 361) and
the edit trigger then appends the unit when the normalized value does not
already contain the token "mmhg" (`app.py` lines 392–395). -/
def pa_regla (x : List Ch) : List Ch :=
  let v := strip x
  if !v.isEmpty && !contiene (ofString ("mmhg")) (normaliza v) then
    v ++ ofString (" mmHg")
  else v

/-- Case-sensitive "ends with" test on modelled strings. -/
def terminaEn (l suf : List Ch) : Bool := empiezaCon suf.reverse l.reverse

/-- One roster record: the three columns `cargar_padron_desde_archivo`
guarantees (`app.py` lines 158–160). -/
structure PadronEntry where
  dni : List Ch
  nombre : List Ch
  beneficio : List Ch
  deriving DecidableEq, Repr

/-- `buscar_en_padron` (`app.py` lines 409–424): empty roster or no match
on the trimmed identifier yields two empty strings, otherwise the first
matching row's name and benefit. -/
def buscar_en_padron (padron : List PadronEntry) (dni : List Ch) : List Ch × List Ch :=
  if padron.isEmpty then ([], [])
  else
    match (padron.map (fun en => { en with dni := strip en.dni })).filter
        (fun en => en.dni == dni) with
    | [] => ([], [])
    | en :: _ => (en.nombre, en.beneficio)

/-- The ten grid columns (`app.py` lines 186–197), named by field. -/
inductive Columna where
  | dni | nombre | beneficio | presion | peso | estatura | imc
  | diagnostico | tratamiento | fecha
  deriving DecidableEq, Repr

/-- One editable row of the grid: the ten cell values plus the colour tag.
The IMC cell holds the rendered number, modelled as the exact value; the
tag holds the category whose colour `actualizar_color_fila` assigned. -/
structure Fila where
  dni : List Ch
  nombre : List Ch
  beneficio : List Ch
  presion : List Ch
  peso : List Ch
  estatura : List Ch
  imc : Option Raz
  diagnostico : List Ch
  tratamiento : List Ch
  fecha : List Ch
  tag : Categoria
  deriving DecidableEq, Repr

/-- A freshly created empty row (`_poblar_filas_vacias`, `app.py`
lines 292–296). -/
def filaVacia : Fila :=
  { dni := [], nombre := [], beneficio := [], presion := [], peso := [],
    estatura := [], imc := none, diagnostico := [], tratamiento := [],
    fecha := [], tag := Categoria.ninguno }

/-- `post_edicion` (`app.py` lines 376–406): the four edit-trigger rules,
keyed by the edited column. -/
def post_edicion (padron : List PadronEntry) (fila : Fila) (col : Columna) : Fila :=
  let f1 :=
    if col = Columna.dni then
      let d := strip fila.dni
      if !d.isEmpty then
        let nb := buscar_en_padron padron d
        { fila with nombre := nb.1, beneficio := nb.2 }
      else fila
    else fila
  let f2 :=
    if col = Columna.presion then
      let pa := strip f1.presion
      if !pa.isEmpty && !contiene (ofString ("mmhg")) (normaliza pa) then
        { f1 with presion := pa ++ ofString (" mmHg") }
      else f1
    else f1
  let f3 :=
    if col = Columna.peso ∨ col = Columna.estatura then
      { f2 with imc := calcular_imc f2.peso f2.estatura }
    else f2
  if col = Columna.diagnostico ∨ col = Columna.tratamiento then
    { f3 with tag := clasificar_paciente f3.diagnostico f3.tratamiento }
  else f3

/-- A parsed calendar date. -/
structure Fecha where
  year : Nat
  month : Nat
  day : Nat
  deriving DecidableEq, Repr

/-- Gregorian leap-year test. -/
def esBisiesto (y : Nat) : Bool := (y % 4 == 0 && y % 100 != 0) || y % 400 == 0

/-- Days in a month, as `datetime` validates them. -/
def diasEnMes (y m : Nat) : Nat :=
  if m = 2 then (if esBisiesto y then 29 else 28)
  else if m = 4 ∨ m = 6 ∨ m = 9 ∨ m = 11 then 30
  else 31

/-- Validity of a calendar date in `datetime`'s supported range. -/
def fechaValida (y m d : Nat) : Bool :=
  1 ≤ y && y ≤ 9999 && 1 ≤ m && m ≤ 12 && 1 ≤ d && d ≤ diasEnMes y m

/-- `datetime.fromisoformat` on a plain `YYYY-MM-DD` date string; any
other input raises `ValueError` in the source, i.e. `none` here (the
time-carrying ISO forms are outside the modelled universe). -/
def parse_iso (l : List Ch) : Option Fecha :=
  match l with
  | [y1, y2, y3, y4, c1, m1, m2, c2, d1, d2] =>
    if c1 == Ch.dash && c2 == Ch.dash &&
        [y1, y2, y3, y4, m1, m2, d1, d2].all esDigito then
      let y := natVal [y1, y2, y3, y4]
      let m := natVal [m1, m2]
      let d := natVal [d1, d2]
      if fechaValida y m d then some ⟨y, m, d⟩ else none
    else none
  | _ => none

/-- Split a string at every slash. -/
def splitSlash : List Ch → List (List Ch)
  | [] => [[]]
  | c :: t =>
    let r := splitSlash t
    if c == Ch.slash then [] :: r
    else
      match r with
      | h :: t2 => (c :: h) :: t2
      | [] => [[c]]

/-- `datetime.strptime(s, "%d/%m/%Y")`: day and month of one or two
digits, a four-digit year, and a valid calendar date; anything else
raises `ValueError` in the source, i.e. `none` here. -/
def parse_dmy (l : List Ch) : Option Fecha :=
  match splitSlash l with
  | [ds, ms, ys] =>
    if !ds.isEmpty && ds.length ≤ 2 && ds.all esDigito &&
        !ms.isEmpty && ms.length ≤ 2 && ms.all esDigito &&
        ys.length = 4 && ys.all esDigito then
      let y := natVal ys
      let m := natVal ms
      let d := natVal ds
      if fechaValida y m d then some ⟨y, m, d⟩ else none
    else none
  | _ => none

/-- The date-parsing policy of `mostrar_resumen_trimestral` (`app.py`
lines 489–494): ISO when the string contains a dash, else `DD/MM/YYYY`;
a failed parse is the caught `ValueError`, i.e. `none`. -/
def parse_fecha (l : List Ch) : Option Fecha :=
  if l.contains Ch.dash then parse_iso l else parse_dmy l

/-- `calcular_trimestre` (`app.py` lines 139–141). -/
def calcular_trimestre (fecha : Fecha) : Nat := (fecha.month - 1) / 3 + 1

/-- Unicode code point of each modelled character, fixing the string
order pandas uses when sorting group keys. -/
def chCode (c : Ch) : Nat :=
  match c with
  | .a => 97 | .b => 98 | .c => 99 | .d => 100 | .e => 101 | .f => 102
  | .g => 103 | .h => 104 | .i => 105 | .j => 106 | .k => 107 | .l => 108
  | .m => 109 | .n => 110 | .o => 111 | .p => 112 | .q => 113 | .r => 114
  | .s => 115 | .t => 116 | .u => 117 | .v => 118 | .w => 119 | .x => 120
  | .y => 121 | .z => 122
  | .A => 65 | .B => 66 | .C => 67 | .D => 68 | .E => 69 | .F => 70
  | .G => 71 | .H => 72 | .I => 73 | .J => 74 | .K => 75 | .L => 76
  | .M => 77 | .N => 78 | .O => 79 | .P => 80 | .Q => 81 | .R => 82
  | .S => 83 | .T => 84 | .U => 85 | .V => 86 | .W => 87 | .X => 88
  | .Y => 89 | .Z => 90
  | .d0 => 48 | .d1 => 49 | .d2 => 50 | .d3 => 51 | .d4 => 52
  | .d5 => 53 | .d6 => 54 | .d7 => 55 | .d8 => 56 | .d9 => 57
  | .space => 32 | .slash => 47 | .dash => 45 | .comma => 44
  | .dot => 46 | .plus => 43
  | .aacute => 225 | .eacute => 233 | .iacute => 237 | .oacute => 243
  | .uacute => 250 | .udia => 252 | .ntilde => 241
  | .Aacute => 193 | .Eacute => 201 | .Iacute => 205 | .Oacute => 211
  | .Uacute => 218 | .Udia => 220 | .Ntilde => 209
  | .macute => 769 | .mtilde => 771 | .mdia => 776
  | .other => 65533

/-- Lexicographic string order by code point. -/
def menorLex : List Ch → List Ch → Bool
  | [], [] => false
  | [], _ :: _ => true
  | _ :: _, [] => false
  | a :: as, b :: bs =>
    if chCode a < chCode b then true
    else if chCode b < chCode a then false
    else menorLex as bs

/-- Group-key order of the quarterly summary: identifier, then year,
then quarter, ascending (the sorted `groupby` keys). -/
def claveMenor (x y : List Ch × Nat × Nat) : Bool :=
  if menorLex x.1 y.1 then true
  else if menorLex y.1 x.1 then false
  else if x.2.1 < y.2.1 then true
  else if y.2.1 < x.2.1 then false
  else decide (x.2.2 < y.2.2)

/-- Ordered insertion for the insertion sort below. -/
def insertaOrd (x : List Ch × Nat × Nat) :
    List (List Ch × Nat × Nat) → List (List Ch × Nat × Nat)
  | [] => [x]
  | h :: t => if claveMenor x h then x :: h :: t else h :: insertaOrd x t

/-- Sort group keys ascending. -/
def ordena (l : List (List Ch × Nat × Nat)) : List (List Ch × Nat × Nat) :=
  l.foldr insertaOrd []

/-- Distinct group keys, first occurrences kept; structural recursion on
an explicit fuel (the list length always suffices) so that it reduces
inside the kernel. -/
def unicosF : Nat → List (List Ch × Nat × Nat) → List (List Ch × Nat × Nat)
  | 0, _ => []
  | _ + 1, [] => []
  | fuel + 1, a :: t => a :: unicosF fuel (t.filter (fun b => b != a))

/-- Distinct group keys, first occurrences kept. -/
def unicos (l : List (List Ch × Nat × Nat)) : List (List Ch × Nat × Nat) :=
  unicosF l.length l

/-- `groupby(["DNI", "Año", "Trimestre"]).size()` (`app.py` line 511):
count the occurrences of each key, keys sorted ascending. -/
def agrupar (datos : List (List Ch × Nat × Nat)) :
    List (List Ch × Nat × Nat × Nat) :=
  (ordena (unicos datos)).map (fun k => (k.1, k.2.1, k.2.2, datos.count k))

/-- The three observable outcomes of `mostrar_resumen_trimestral`: the
"Sin datos" message, the "Sin fechas válidas" message, or the populated
summary window. -/
inductive Resumen where
  | sinDatos
  | sinFechasValidas
  | tabla (grupos : List (List Ch × Nat × Nat × Nat))
  deriving DecidableEq, Repr

/-- `mostrar_resumen_trimestral` (`app.py` lines 472–511): with no rows
report "Sin datos"; drop rows lacking identifier or date and rows whose
date parses with neither format; with no surviving row report "Sin fechas
válidas"; otherwise group by (identifier, year, quarter) and count. -/
def mostrar_resumen_trimestral (filas : List Fila) : Resumen :=
  if filas.isEmpty then Resumen.sinDatos
  else
    let datos := filas.filterMap (fun f =>
      if !f.dni.isEmpty && !f.fecha.isEmpty then
        (parse_fecha f.fecha).map (fun fe => (f.dni, fe.year, calcular_trimestre fe))
      else none)
    if datos.isEmpty then Resumen.sinFechasValidas
    else Resumen.tabla (agrupar datos)

theorem limpIzq_dropWhile (l : List Ch) : LimpIzq (l.dropWhile isWsCh) := by
  intro a h
  induction l with
  | nil => simp [List.dropWhile] at h
  | cons b t ih =>
    rw [List.dropWhile_cons] at h
    by_cases hb : isWsCh b = true
    · rw [if_pos hb] at h; exact ih h
    · rw [if_neg hb] at h
      simp only [List.head?_cons, Option.some.injEq] at h
      subst h
      simpa using hb

theorem dropWhile_fix {l : List Ch} (h : LimpIzq l) : l.dropWhile isWsCh = l := by
  cases l with
  | nil => rfl
  | cons a t =>
    rw [List.dropWhile_cons, if_neg]
    simp [h a rfl]

theorem prefix_head {l₁ l₂ : List Ch} {a : Ch} (h : l₁ <+: l₂)
    (ha : l₁.head? = some a) : l₂.head? = some a := by
  obtain ⟨t, rfl⟩ := h
  cases l₁ with
  | nil => simp at ha
  | cons b u => simpa using ha

theorem reverse_prefix_of_suffix {s l : List Ch} (h : s <:+ l) :
    s.reverse <+: l.reverse := by
  obtain ⟨u, rfl⟩ := h
  exact ⟨u.reverse, by simp⟩

theorem stripIzq_suffix (l : List Ch) : stripIzq l <:+ l :=
  List.dropWhile_suffix _

theorem limpIzq_stripIzq (l : List Ch) : LimpIzq (stripIzq l) :=
  limpIzq_dropWhile l

theorem limpDer_stripDer (k : List Ch) : LimpDer (stripDer k) := by
  unfold LimpDer stripDer
  rw [List.reverse_reverse]
  exact limpIzq_dropWhile _

theorem stripDer_prefijo (k : List Ch) : stripDer k <+: k := by
  have h := reverse_prefix_of_suffix (stripIzq_suffix k.reverse)
  rw [List.reverse_reverse] at h
  exact h

theorem limpIzq_stripDer {k : List Ch} (h : LimpIzq k) : LimpIzq (stripDer k) := by
  intro a ha
  exact h a (prefix_head (stripDer_prefijo k) ha)

theorem limpDer_stripIzq {k : List Ch} (h : LimpDer k) : LimpDer (stripIzq k) := by
  intro a ha
  exact h a (prefix_head (reverse_prefix_of_suffix (stripIzq_suffix k)) ha)

theorem stripIzq_fix {l : List Ch} (h : LimpIzq l) : stripIzq l = l :=
  dropWhile_fix h

theorem stripDer_fix {l : List Ch} (h : LimpDer l) : stripDer l = l := by
  unfold stripDer
  rw [stripIzq_fix h, List.reverse_reverse]

theorem strip_fix {l : List Ch} (h1 : LimpIzq l) (h2 : LimpDer l) : strip l = l := by
  unfold strip
  rw [stripIzq_fix h1, stripDer_fix h2]

theorem limpIzq_strip (l : List Ch) : LimpIzq (strip l) :=
  limpIzq_stripDer (limpIzq_stripIzq l)

theorem limpDer_strip (l : List Ch) : LimpDer (strip l) :=
  limpDer_stripDer _

theorem strip_idem (l : List Ch) : strip (strip l) = strip l :=
  strip_fix (limpIzq_strip l) (limpDer_strip l)

theorem lowerCh_ws : ∀ c : Ch, isWsCh (lowerCh c) = isWsCh c := by decide

theorem nfd_lower_fix : ∀ c d : Ch,
    d ∈ (nfdCh (lowerCh c)).filter (fun x => !isMnCh x) →
    lowerCh d = d ∧ nfdCh d = [d] ∧ isMnCh d = false := by decide

theorem nfd_limpio : ∀ c : Ch, isMnCh c = false → isWsCh c = false →
    ((nfdCh c).filter (fun x => !isMnCh x)) ≠ [] ∧
    (∀ a, ((nfdCh c).filter (fun x => !isMnCh x)).head? = some a → isWsCh a = false) ∧
    (∀ a, ((nfdCh c).filter (fun x => !isMnCh x)).reverse.head? = some a →
      isWsCh a = false) := by decide

theorem isMn_lowerCh : ∀ c : Ch, isMnCh (lowerCh c) = isMnCh c := by decide

theorem deaccent_append (a b : List Ch) :
    deaccent (a ++ b) = deaccent a ++ deaccent b := by
  induction a with
  | nil => rfl
  | cons c t ih => simp [deaccent, ih]

theorem mem_deaccent {d : Ch} {m : List Ch} (h : d ∈ deaccent m) :
    ∃ c ∈ m, d ∈ (nfdCh c).filter (fun x => !isMnCh x) := by
  induction m with
  | nil => simp [deaccent] at h
  | cons c t ih =>
    simp only [deaccent, List.mem_append] at h
    rcases h with h | h
    · exact ⟨c, by simp, h⟩
    · obtain ⟨c', hc', hd⟩ := ih h
      exact ⟨c', by simp [hc'], hd⟩

theorem deaccent_fix {m : List Ch}
    (h : ∀ c ∈ m, nfdCh c = [c] ∧ isMnCh c = false) : deaccent m = m := by
  induction m with
  | nil => rfl
  | cons c t ih =>
    have hc := h c (by simp)
    have ht := ih (fun c' hc' => h c' (by simp [hc']))
    simp [deaccent, hc.1, hc.2, List.filter, ht]

theorem contiene_append_right {n w : List Ch} (u : List Ch)
    (h : contiene n w = true) : contiene n (u ++ w) = true := by
  induction u with
  | nil => simpa using h
  | cons c t ih => simp [contiene, ih]

theorem limpIzq_append {v w : List Ch} (h : LimpIzq v) (hne : v ≠ []) :
    LimpIzq (v ++ w) := by
  intro a ha
  cases v with
  | nil => exact absurd rfl hne
  | cons b t =>
    simp only [List.cons_append, List.head?_cons, Option.some.injEq] at ha
    exact ha ▸ h b rfl

theorem limpDer_append {u w : List Ch} {g : Ch} {r : List Ch}
    (hw : w.reverse = g :: r) (hg : isWsCh g = false) : LimpDer (u ++ w) := by
  intro a ha
  rw [List.reverse_append, hw] at ha
  simp only [List.cons_append, List.head?_cons, Option.some.injEq] at ha
  exact ha ▸ hg

theorem limpIzq_map_lower {v : List Ch} (h : LimpIzq v) :
    LimpIzq (v.map lowerCh) := by
  intro a ha
  cases v with
  | nil => simp at ha
  | cons b t =>
    simp only [List.map_cons, List.head?_cons, Option.some.injEq] at ha
    rw [← ha, lowerCh_ws b]
    exact h b rfl

theorem normaliza_append_mmHg {v : List Ch} (h1 : LimpIzq v) (h2 : v ≠ []) :
    contiene (ofString ("mmhg")) (normaliza (v ++ ofString (" mmHg"))) = true := by
  have hmap : (v ++ ofString (" mmHg")).map lowerCh
      = v.map lowerCh ++ ofString (" mmhg") := by
    rw [List.map_append]
    rfl
  have hrev : (ofString (" mmhg")).reverse
      = Ch.g :: [Ch.h, Ch.m, Ch.m, Ch.space] := by decide
  have hIzq : LimpIzq (v.map lowerCh ++ ofString (" mmhg")) :=
    limpIzq_append (limpIzq_map_lower h1) (by simpa using h2)
  have hDer : LimpDer (v.map lowerCh ++ ofString (" mmhg")) :=
    limpDer_append hrev (by decide)
  unfold normaliza
  rw [hmap, strip_fix hIzq hDer, deaccent_append]
  have hde : deaccent (ofString (" mmhg")) = ofString (" mmhg") := by decide
  rw [hde]
  exact contiene_append_right _ (by decide)

theorem strip_pa_append {x : List Ch} (h2 : strip x ≠ []) :
    strip (strip x ++ ofString (" mmHg")) = strip x ++ ofString (" mmHg") := by
  have hrev : (ofString (" mmHg")).reverse
      = Ch.g :: [Ch.H, Ch.m, Ch.m, Ch.space] := by decide
  exact strip_fix (limpIzq_append (limpIzq_strip x) h2)
    (limpDer_append hrev (by decide))


/-- C1: whenever both the diabetes and the hypertension detectors fire,
`clasificar_paciente` answers `mixto`, never `diabetes` or `hta` alone;
otherwise the first matching category in the fixed order diabetes, hta,
hipotiroidismo is returned, `ninguno` when none matches, and in
particular on two empty inputs. -/
theorem clasificar_paciente_precedencia : ∀ d t : List Ch,
    (es_diabetico d t = true → es_hipertenso d t = true →
      clasificar_paciente d t = Categoria.mixto) ∧
    (es_diabetico d t = true → es_hipertenso d t = false →
      clasificar_paciente d t = Categoria.diabetes) ∧
    (es_diabetico d t = false → es_hipertenso d t = true →
      clasificar_paciente d t = Categoria.hta) ∧
    (es_diabetico d t = false → es_hipertenso d t = false →
      es_hipotiroideo d t = true → clasificar_paciente d t = Categoria.hipotiroidismo) ∧
    (es_diabetico d t = false → es_hipertenso d t = false →
      es_hipotiroideo d t = false → clasificar_paciente d t = Categoria.ninguno) ∧
    clasificar_paciente [] [] = Categoria.ninguno := by
  intro d t
  refine ⟨?_, ?_, ?_, ?_, ?_, ?_⟩
  · intro h1 h2; simp [clasificar_paciente, h1, h2]
  · intro h1 h2; simp [clasificar_paciente, h1, h2]
  · intro h1 h2; simp [clasificar_paciente, h1, h2]
  · intro h1 h2 h3; simp [clasificar_paciente, h1, h2, h3]
  · intro h1 h2 h3; simp [clasificar_paciente, h1, h2, h3]
  · decide

/-- Concrete instances of the classification precedence theorem. -/
theorem clasificar_paciente_precedencia_w :
    clasificar_paciente (ofString ("Diabetes")) (ofString ("Losartán 50mg")) = Categoria.mixto ∧
    clasificar_paciente (ofString ("Diabetes Mellitus Tipo 2")) [] = Categoria.diabetes ∧
    clasificar_paciente [] (ofString ("Losartán 50mg")) = Categoria.hta ∧
    clasificar_paciente (ofString ("Hipotiroidismo")) [] = Categoria.hipotiroidismo ∧
    clasificar_paciente (ofString ("gripe")) [] = Categoria.ninguno :=
  ⟨(clasificar_paciente_precedencia _ _).1 (by decide) (by decide),
   (clasificar_paciente_precedencia _ _).2.1 (by decide) (by decide),
   (clasificar_paciente_precedencia _ _).2.2.1 (by decide) (by decide),
   (clasificar_paciente_precedencia _ _).2.2.2.1 (by decide) (by decide) (by decide),
   (clasificar_paciente_precedencia _ _).2.2.2.2.1 (by decide) (by decide) (by decide)⟩

/-- C10 counterexample: on inputs "70" and "1.75" the program does not
return 24.49. -/
theorem calcular_imc_70_175_no_2449 :
    calcular_imc (ofString ("70")) (ofString ("1.75")) ≠ some (raz 2449 100) := by
  decide

/-- C10 amended: `calcular_imc` on "70" and "1.75" returns 22.86
(70 / 1.75² = 22.857…, rounded to 2 decimal places). -/
theorem calcular_imc_70_175 :
    calcular_imc (ofString ("70")) (ofString ("1.75")) = some (raz 2286 100) := by
  decide

/-- C3 counterexample: after an edit committing "120/80 mmHg ok" the
bloodPressure value is non-empty but does not end with a case-insensitive
"mmHg" marker — the trigger only checks containment, not position. -/
theorem presion_no_termina_en_unidad :
    pa_regla (ofString ("120/80 mmHg ok")) ≠ [] ∧
    terminaEn ((pa_regla (ofString ("120/80 mmHg ok"))).map lowerCh)
      (ofString ("mmhg")) = false := by decide

/-- C3 amended: once the blood-pressure value is non-empty after the
edit-trigger normalization, its normalized form always contains the unit
token "mmhg" (though it need not end with it); the suffix " mmHg" is
appended exactly when the stripped value is non-empty and its normalized
form does not already contain the token. -/
theorem presion_contiene_unidad : ∀ x : List Ch,
    (pa_regla x ≠ [] → contiene (ofString ("mmhg")) (normaliza (pa_regla x)) = true) ∧
    (contiene (ofString ("mmhg")) (normaliza (strip x)) = true → pa_regla x = strip x) ∧
    (strip x ≠ [] → contiene (ofString ("mmhg")) (normaliza (strip x)) = false →
      pa_regla x = strip x ++ ofString (" mmHg")) := by
  intro x
  refine ⟨?_, ?_, ?_⟩
  · intro hne
    by_cases hv : strip x = []
    · exact absurd (by simp [pa_regla, hv]) hne
    · cases hc : contiene (ofString ("mmhg")) (normaliza (strip x)) with
      | true =>
        have h1 : pa_regla x = strip x := by simp [pa_regla, hc]
        rw [h1]; exact hc
      | false =>
        have h1 : pa_regla x = strip x ++ ofString (" mmHg") := by
          simp [pa_regla, hv, hc]
        rw [h1]
        exact normaliza_append_mmHg (limpIzq_strip x) hv
  · intro hc; simp [pa_regla, hc]
  · intro hv hc; simp [pa_regla, hv, hc]

/-- Concrete instances of the blood-pressure unit theorem. -/
theorem presion_contiene_unidad_w :
    pa_regla (ofString ("120/80")) = strip (ofString ("120/80")) ++ ofString (" mmHg") ∧
    contiene (ofString ("mmhg")) (normaliza (pa_regla (ofString ("120/80")))) = true :=
  ⟨(presion_contiene_unidad _).2.2 (by decide) (by decide),
   (presion_contiene_unidad _).1 (by decide)⟩

/-- C4: the blood-pressure edit-trigger normalization is idempotent —
re-normalizing its output changes nothing, so the unit suffix is never
duplicated; in particular "120/80" normalizes to "120/80 mmHg" and
normalizing that again returns it unchanged. -/
theorem pa_regla_idempotente :
    (∀ x : List Ch, pa_regla (pa_regla x) = pa_regla x) ∧
    pa_regla (ofString ("120/80")) = ofString ("120/80 mmHg") ∧
    pa_regla (pa_regla (ofString ("120/80"))) = ofString ("120/80 mmHg") := by
  refine ⟨?_, by decide, by decide⟩
  intro x
  by_cases hv : strip x = []
  · have h1 : pa_regla x = [] := by simp [pa_regla, hv]
    rw [h1]; decide
  · cases hc : contiene (ofString ("mmhg")) (normaliza (strip x)) with
    | true =>
      have h1 : pa_regla x = strip x := by simp [pa_regla, hc]
      rw [h1]
      simp [pa_regla, strip_idem, hc]
    | false =>
      have h1 : pa_regla x = strip x ++ ofString (" mmHg") := by
        simp [pa_regla, hv, hc]
      rw [h1]
      have hfix := strip_pa_append hv
      have hcont := normaliza_append_mmHg (limpIzq_strip x) hv
      simp [pa_regla, hfix, hcont]

theorem mem_strip {a : Ch} {l : List Ch} (h : a ∈ strip l) : a ∈ l :=
  (stripIzq_suffix l).sublist.subset ((stripDer_prefijo (stripIzq l)).sublist.subset h)

theorem map_fix {f : Ch → Ch} {l : List Ch} (h : ∀ c ∈ l, f c = c) : l.map f = l := by
  induction l with
  | nil => rfl
  | cons c t ih => simp [h c (by simp), ih (fun c' hc' => h c' (by simp [hc']))]

theorem limpIzq_deaccent {m : List Ch} (hIzq : LimpIzq m)
    (hmn : ∀ c ∈ m, isMnCh c = false) : LimpIzq (deaccent m) := by
  cases m with
  | nil => intro a ha; simp [deaccent] at ha
  | cons c t =>
    intro a ha
    have hc : isMnCh c = false := hmn c (by simp)
    have hw : isWsCh c = false := hIzq c rfl
    obtain ⟨hne, hhead, _⟩ := nfd_limpio c hc hw
    simp only [deaccent] at ha
    cases hfc : (nfdCh c).filter (fun x => !isMnCh x) with
    | nil => exact absurd hfc hne
    | cons b u =>
      rw [hfc] at ha
      simp only [List.cons_append, List.head?_cons, Option.some.injEq] at ha
      refine ha ▸ hhead b ?_
      rw [hfc]; rfl

theorem limpDer_deaccent {m : List Ch} (hDer : LimpDer m)
    (hmn : ∀ c ∈ m, isMnCh c = false) : LimpDer (deaccent m) := by
  rcases List.eq_nil_or_concat m with rfl | ⟨t, c, rfl⟩
  · intro a ha; simp [deaccent] at ha
  · intro a ha
    have hc : isMnCh c = false := hmn c (by simp)
    have hw : isWsCh c = false := by
      refine hDer c ?_
      simp
    obtain ⟨hne, _, hlast⟩ := nfd_limpio c hc hw
    have hsingle : deaccent [c] = (nfdCh c).filter (fun x => !isMnCh x) := by
      simp [deaccent]
    rw [List.concat_eq_append, deaccent_append, List.reverse_append, hsingle] at ha
    cases hfc : ((nfdCh c).filter (fun x => !isMnCh x)).reverse with
    | nil => exact absurd (List.reverse_eq_nil_iff.mp hfc) hne
    | cons b u =>
      rw [hfc] at ha
      simp only [List.cons_append, List.head?_cons, Option.some.injEq] at ha
      refine ha ▸ hlast b ?_
      rw [hfc]; rfl

/-- C9 counterexample: normalizing the string "a " followed by the
combining acute accent U+0301 yields "a " (the mark shields the trailing
space from stripping and is then removed), and a second normalization
yields "a" — `normaliza` is not idempotent on strings containing
combining marks. -/
theorem normaliza_no_idempotente :
    normaliza (normaliza [Ch.a, Ch.space, Ch.macute])
      ≠ normaliza [Ch.a, Ch.space, Ch.macute] := by decide

/-- C9 amended: the output of `normaliza` never contains combining
diacritical marks, and `normaliza` is idempotent on every input that
contains no combining diacritical mark (precomposed accented characters
are fine; only a bare combining mark adjacent to boundary whitespace can
defeat idempotence). -/
theorem normaliza_idem_sin_marcas : ∀ l : List Ch,
    (∀ d ∈ normaliza l, isMnCh d = false) ∧
    ((∀ c ∈ l, isMnCh c = false) → normaliza (normaliza l) = normaliza l) := by
  intro l
  constructor
  · intro d hd
    obtain ⟨c, _, h⟩ := mem_deaccent hd
    simp only [List.mem_filter] at h
    simpa using h.2
  · intro h
    have hmn : ∀ c ∈ strip (l.map lowerCh), isMnCh c = false := by
      intro c hc
      obtain ⟨c₀, hc₀, rfl⟩ := List.mem_map.mp (mem_strip hc)
      rw [isMn_lowerCh]
      exact h c₀ hc₀
    have hofix : ∀ d ∈ normaliza l, lowerCh d = d ∧ nfdCh d = [d] ∧ isMnCh d = false := by
      intro d hd
      obtain ⟨c, hc, hdf⟩ := mem_deaccent hd
      obtain ⟨c₀, _, rfl⟩ := List.mem_map.mp (mem_strip hc)
      exact nfd_lower_fix c₀ d hdf
    have hmap : (normaliza l).map lowerCh = normaliza l :=
      map_fix (fun c hc => (hofix c hc).1)
    have hIzq : LimpIzq (normaliza l) := limpIzq_deaccent (limpIzq_strip _) hmn
    have hDer : LimpDer (normaliza l) := limpDer_deaccent (limpDer_strip _) hmn
    show deaccent (strip ((normaliza l).map lowerCh)) = normaliza l
    rw [hmap, strip_fix hIzq hDer]
    exact deaccent_fix (fun c hc => ⟨(hofix c hc).2.1, (hofix c hc).2.2⟩)

/-- Concrete instance of the amended idempotence theorem on an accented
(but mark-free) input. -/
theorem normaliza_idem_sin_marcas_w :
    normaliza (normaliza (ofString ("Hipertensión")))
      = normaliza (ofString ("Hipertensión")) :=
  (normaliza_idem_sin_marcas (ofString ("Hipertensión"))).2 (by decide)

theorem buscar_aux (dni : List Ch) : ∀ l : List PadronEntry,
    (match (l.map (fun en => { en with dni := strip en.dni })).filter
        (fun en => en.dni == dni) with
     | [] => (([] : List Ch), ([] : List Ch))
     | en :: _ => (en.nombre, en.beneficio)) =
    (match l.find? (fun en => strip en.dni == dni) with
     | none => (([] : List Ch), ([] : List Ch))
     | some en => (en.nombre, en.beneficio)) := by
  intro l
  induction l with
  | nil => rfl
  | cons e t ih =>
    cases h : (strip e.dni == dni) with
    | true => simp [List.filter_cons, List.find?_cons, h]
    | false =>
      simp only [List.map_cons, List.filter_cons, List.find?_cons, h]
      simpa using ih

/-- C7: for every identifier, `buscar_en_padron` returns the name and
benefit of the first roster entry whose trimmed identifier equals the
query, and two empty strings when the roster is empty or no entry
matches. -/
theorem buscar_en_padron_primera_coincidencia :
    ∀ (padron : List PadronEntry) (dni : List Ch),
    buscar_en_padron padron dni =
      (match padron.find? (fun en => strip en.dni == dni) with
       | none => (([] : List Ch), ([] : List Ch))
       | some en => (en.nombre, en.beneficio)) := by
  intro padron dni
  cases padron with
  | nil => rfl
  | cons e t =>
    unfold buscar_en_padron
    rw [if_neg (by simp)]
    exact buscar_aux dni (e :: t)

/-- C8: editing weight or height recomputes the BMI from the row's
current weight and height and changes no other field (in particular not
the category tag); editing the name, benefit, IMC or attention-date
columns triggers nothing and leaves the row unchanged. -/
theorem post_edicion_marco : ∀ (padron : List PadronEntry) (fila : Fila),
    post_edicion padron fila Columna.peso
      = { fila with imc := calcular_imc fila.peso fila.estatura } ∧
    post_edicion padron fila Columna.estatura
      = { fila with imc := calcular_imc fila.peso fila.estatura } ∧
    (post_edicion padron fila Columna.peso).tag = fila.tag ∧
    (post_edicion padron fila Columna.estatura).tag = fila.tag ∧
    post_edicion padron fila Columna.nombre = fila ∧
    post_edicion padron fila Columna.beneficio = fila ∧
    post_edicion padron fila Columna.imc = fila ∧
    post_edicion padron fila Columna.fecha = fila := by
  intro padron fila
  exact ⟨rfl, rfl, rfl, rfl, rfl, rfl, rfl, rfl⟩

/-- C5: the aggregator parses ISO dates (dash present) and DD/MM/YYYY
dates (no dash) to the same calendar dates, the quarter formula stays in
1–4 for any valid month, and two rows with the same identifier and the
dates "2024-01-15" and "15/01/2024" are counted together as one group
(year 2024, quarter 1, 2 attentions). -/
theorem resumen_trimestral_correcto :
    parse_fecha (ofString ("2024-01-15")) = some ⟨2024, 1, 15⟩ ∧
    parse_fecha (ofString ("15/01/2024")) = some ⟨2024, 1, 15⟩ ∧
    (∀ f : Fecha, 1 ≤ f.month → f.month ≤ 12 →
      1 ≤ calcular_trimestre f ∧ calcular_trimestre f ≤ 4) ∧
    mostrar_resumen_trimestral
        [{ filaVacia with dni := ofString ("1"), fecha := ofString ("2024-01-15") },
         { filaVacia with dni := ofString ("1"), fecha := ofString ("15/01/2024") }]
      = Resumen.tabla [(ofString ("1"), 2024, 1, 2)] := by
  refine ⟨by decide, by decide, ?_, by decide⟩
  intro f h1 h2
  unfold calcular_trimestre
  omega

/-- Concrete instance of the quarter-range part of the aggregation
theorem. -/
theorem resumen_trimestral_correcto_w :
    1 ≤ calcular_trimestre ⟨2024, 11, 3⟩ ∧ calcular_trimestre ⟨2024, 11, 3⟩ ≤ 4 :=
  resumen_trimestral_correcto.2.2.1 ⟨2024, 11, 3⟩ (by decide) (by decide)

/-- C6: a row whose attention date is "not-a-date" is dropped silently
(the summary reports "no valid dates"), and that outcome is distinct from
the "no rows at all" outcome. -/
theorem resumen_fechas_invalidas :
    mostrar_resumen_trimestral
        [{ filaVacia with dni := ofString ("1"), fecha := ofString ("not-a-date") }]
      = Resumen.sinFechasValidas ∧
    mostrar_resumen_trimestral [] = Resumen.sinDatos ∧
    Resumen.sinFechasValidas ≠ Resumen.sinDatos := by
  exact ⟨by decide, rfl, by decide⟩
